import Mathlib

/-!
Verification of the dedupe photo organizer core (Go package `photo`).

The development is a shallow embedding of the source: the `State` progress
counters, the fingerprint index (the shared `duplicates` map), the per-file
procedure `processFile`, the worker loop of `ProcessFiles`, the
naming-conflict resolver `resolveNamingConflict`, and the two metadata
strategies (`getPhotoCreationDate`, `getVideoCreationDate`).  Filesystem and
collaborator behaviour (os.Open, os.Stat, checksum computation, the EXIF
decoder, the yami media prober) is supplied by an explicit environment
record `FSEnv`; the shared map and counters are threaded as explicit state.
The source serializes every index mutation, transfer, and log append under
one mutex (`mapLock`), and every counter update under the `State` mutex, so
a run is modelled as a fold over the walked file list: any interleaving of
the workers executes the same serialized critical sections in some order,
and all modelled properties are stated for every such order.
-/

namespace Dedupe

/-- The character of the decimal digit `d`, as produced by the `%d` verb of
fmt.Sprintf for a single digit.  Inputs outside 0..9 never occur (every
digit fed to it is a remainder mod 10). -/
def digitChar : Nat → Char
  | 0 => '0'
  | 1 => '1'
  | 2 => '2'
  | 3 => '3'
  | 4 => '4'
  | 5 => '5'
  | 6 => '6'
  | 7 => '7'
  | 8 => '8'
  | 9 => '9'
  | _ => '*'

/-- Decimal digits of `n`, least significant first.  The `fuel` argument
bounds the recursion depth; `fuel = n` always suffices since `n / 10 < n`
for positive `n`. -/
def revDecDigits : Nat → Nat → List Nat
  | _, 0 => []
  | 0, _ + 1 => []
  | fuel + 1, n + 1 => (n + 1) % 10 :: revDecDigits fuel ((n + 1) / 10)

/-- Decimal rendering of a natural number, as produced by the `%d` verb of
fmt.Sprintf. -/
def natToDecStr (n : Nat) : String :=
  if n = 0 then "0" else String.mk (((revDecDigits n n).map digitChar).reverse)

/-- The value of a decimal digit string, most significant first: a left
inverse of `natToDecStr` used to show the rendering is injective. -/
def decVal (l : List Char) : Nat :=
  l.foldl (fun acc c => acc * 10 + (c.toNat - 48)) 0

/-- String form of `decVal`. -/
def decValStr (s : String) : Nat := decVal s.data

/-- The number a least-significant-first digit list denotes: the
specification-side inverse of `revDecDigits`. -/
def ofRevDigits : List Nat → Nat
  | [] => 0
  | d :: ds => d + 10 * ofRevDigits ds

/-- Left-pad a string with zeros to width `w`, as the zero-padded numeric
verbs of Go time formatting do. -/
def padZeros (s : String) (w : Nat) : String :=
  String.mk (List.replicate (w - s.data.length) '0' ++ s.data)

/-- Rendering of a month or day by time.Format with layout `01` or `02`:
zero-padded to two digits. -/
def pad2 (n : Nat) : String := padZeros (natToDecStr n) 2

/-- Rendering of a year by time.Format with layout `2006`: zero-padded to
four digits. -/
def formatYear (n : Nat) : String := padZeros (natToDecStr n) 4

/-- The first `n` bytes of a string (`s[:n]` in Go; the strings sliced this
way here are hex-encoded checksums, so bytes and characters coincide). -/
def strTake (s : String) (n : Nat) : String := String.mk (s.data.take n)

/-- strings.ToLower restricted to ASCII, which is all the extension
comparisons need. -/
def lowerStr (s : String) : String := String.mk (s.data.map Char.toLower)

/-- strings.EqualFold restricted to ASCII. -/
def equalFold (a b : String) : Bool := lowerStr a = lowerStr b

/-- strings.HasPrefix. -/
def strHasPrefix (s pre : String) : Bool := pre.data.isPrefixOf s.data

/-- filepath.Split: everything up to and including the final slash, and the
rest. -/
def splitPath (p : String) : String × String :=
  let r := p.data.reverse
  (String.mk (r.dropWhile (fun c => c ≠ '/')).reverse,
   String.mk (r.takeWhile (fun c => c ≠ '/')).reverse)

/-- filepath.Ext: the suffix of the final path element starting at its last
dot, empty when the final element has no dot. -/
def fileExt (p : String) : String :=
  let seg := p.data.reverse.takeWhile (fun c => c ≠ '/')
  if '.' ∈ seg then String.mk ((seg.takeWhile (fun c => c ≠ '.') ++ ['.']).reverse)
  else ""

/-- strings.TrimSuffix. -/
def trimSuffix (s suffix : String) : String :=
  if suffix.data.reverse.isPrefixOf s.data.reverse then
    String.mk (s.data.reverse.drop suffix.data.length).reverse
  else s

/-- filepath.Base: the final element of the path, after trailing slashes
are removed; `.` for the empty path and `/` for the root. -/
def baseName (p : String) : String :=
  if p = "" then "." else
  let r := p.data.reverse.dropWhile (fun c => c = '/')
  if r = [] then "/" else String.mk (r.takeWhile (fun c => c ≠ '/')).reverse

/-- Whether the final character is a slash. -/
def endsWithSlash (s : String) : Bool :=
  match s.data.reverse with
  | [] => false
  | c :: _ => c = '/'

/-- filepath.Join for the clean operands the organizer joins (a directory,
with or without a trailing slash, and a file or directory name). -/
def joinPath (dir name : String) : String :=
  if dir = "" then name
  else if endsWithSlash dir then dir ++ name
  else dir ++ "/" ++ name

/-- A calendar timestamp, the shallow embedding of time.Time at the
granularity the organizer observes.  The zero value of time.Time is
`⟨1, 1, 1, 0, 0, 0⟩`. -/
structure DateTime where
  year : Nat
  month : Nat
  day : Nat
  hour : Nat
  minute : Nat
  second : Nat
deriving DecidableEq, Repr

/-- The zero time.Time value: January 1 of year 1, 00:00:00. -/
def zeroTime : DateTime := ⟨1, 1, 1, 0, 0, 0⟩

/-- time.Time.IsZero. -/
def DateTime.isZero (d : DateTime) : Bool := d = zeroTime

/-- The numeric value of an ASCII digit character, none for other
characters. -/
def digitVal (c : Char) : Option Nat :=
  if '0' ≤ c ∧ c ≤ '9' then some (c.toNat - 48) else none

/-- Gregorian leap year rule, as package time implements it. -/
def isLeapYear (y : Nat) : Bool := y % 4 = 0 ∧ (y % 100 ≠ 0 ∨ y % 400 = 0)

/-- Days in a month, as package time validates a parsed day against. -/
def daysInMonth (y m : Nat) : Nat :=
  if m = 2 then (if isLeapYear y then 29 else 28)
  else if m = 4 ∨ m = 6 ∨ m = 9 ∨ m = 11 then 30
  else 31

/-- time.Parse with the fixed layout `2006-01-02 15:04:05 UTC`.  In the Go
reference layout the zone placeholder is `MST`; the trailing `UTC` of this
layout is not a recognized layout element, so package time matches it as
literal text: only inputs whose zone designator is the literal string UTC
parse, and the parsed fields are range-checked exactly as package time
checks them. -/
def parse2Digits (l : List Char) : Option (Nat × List Char) :=
  match l with
  | c1 :: c2 :: rest =>
    match digitVal c1, digitVal c2 with
    | some a, some b => some (a * 10 + b, rest)
    | _, _ => none
  | _ => none

def expectChar (c : Char) (l : List Char) : Option (List Char) :=
  match l with
  | x :: rest => if x = c then some rest else none
  | _ => none

def goTimeParseUTC (s : String) : Option DateTime :=
  match parse2Digits s.data with
  | none => none
  | some (yHi, r1) =>
  match parse2Digits r1 with
  | none => none
  | some (yLo, r2) =>
  match expectChar '-' r2 with
  | none => none
  | some r3 =>
  match parse2Digits r3 with
  | none => none
  | some (month, r4) =>
  match expectChar '-' r4 with
  | none => none
  | some r5 =>
  match parse2Digits r5 with
  | none => none
  | some (day, r6) =>
  match expectChar ' ' r6 with
  | none => none
  | some r7 =>
  match parse2Digits r7 with
  | none => none
  | some (hour, r8) =>
  match expectChar ':' r8 with
  | none => none
  | some r9 =>
  match parse2Digits r9 with
  | none => none
  | some (minute, r10) =>
  match expectChar ':' r10 with
  | none => none
  | some r11 =>
  match parse2Digits r11 with
  | none => none
  | some (second, r12) =>
  if r12 = [' ', 'U', 'T', 'C'] then
    let year := yHi * 100 + yLo
    if 1 ≤ month ∧ month ≤ 12 ∧ 1 ≤ day ∧ day ≤ daysInMonth year month ∧
        hour ≤ 23 ∧ minute ≤ 59 ∧ second ≤ 59 then
      some ⟨year, month, day, hour, minute, second⟩
    else none
  else none

/-- Follows the words of the specification, for comparison with the code:
the claimed tagged-date pattern `YYYY-MM-DD HH:MM:SS <zone>` with an
arbitrary (nonempty, alphabetic) time zone designator. -/
def specTimePatternMatches (s : String) : Bool :=
  match parse2Digits s.data with
  | none => false
  | some (_, r1) =>
  match parse2Digits r1 with
  | none => false
  | some (_, r2) =>
  match expectChar '-' r2 with
  | none => false
  | some r3 =>
  match parse2Digits r3 with
  | none => false
  | some (_, r4) =>
  match expectChar '-' r4 with
  | none => false
  | some r5 =>
  match parse2Digits r5 with
  | none => false
  | some (_, r6) =>
  match expectChar ' ' r6 with
  | none => false
  | some r7 =>
  match parse2Digits r7 with
  | none => false
  | some (_, r8) =>
  match expectChar ':' r8 with
  | none => false
  | some r9 =>
  match parse2Digits r9 with
  | none => false
  | some (_, r10) =>
  match expectChar ':' r10 with
  | none => false
  | some r11 =>
  match parse2Digits r11 with
  | none => false
  | some (_, r12) =>
  match expectChar ' ' r12 with
  | none => false
  | some zone => !zone.isEmpty && zone.all (fun c => 'A' ≤ c && c ≤ 'Z')

/-- A video track of a yami media-info result; the organizer reads only its
TaggedDate field. -/
structure VideoTrack where
  taggedDate : String
deriving DecidableEq, Repr

/-- A yami media-info result; GetFirstVideoTrack is the head of the video
track list, nil (here none) when there is no video track. -/
structure MediaInfo where
  videoTracks : List VideoTrack
deriving DecidableEq, Repr

/-- MediaInfo.GetFirstVideoTrack. -/
def MediaInfo.getFirstVideoTrack (m : MediaInfo) : Option VideoTrack :=
  m.videoTracks.head?

/-- Nanoseconds per second: time.Second. -/
def nsPerSecond : Nat := 1000000000

/-- EXIF data as the photo strategy observes it: `dateTime` is the result
of x.DateTime(), none when that call fails (missing timestamp field). -/
structure ExifData where
  dateTime : Option DateTime

/-- The environment of one run: the responses of the filesystem and of the
external collaborators to each request the organizer makes.  Stat answers
are given by membership in the finite list `fs` of existing paths, which is
what makes the naming-conflict scan terminating. -/
structure FSEnv where
  /-- Paths for which os.Stat succeeds (the path exists). -/
  fs : List String
  /-- Whether os.Open succeeds for a path. -/
  openOk : String → Bool
  /-- Whether File.Seek back to the start succeeds for a path. -/
  seekOk : String → Bool
  /-- The result of calculateChecksum: the hex MD5 of the content streamed
  from the open file, none when the streaming read fails. -/
  checksumOf : String → Option String
  /-- Whether os.MkdirAll succeeds for a directory. -/
  mkdirOk : String → Bool
  /-- Whether copyFile succeeds from a source to a destination. -/
  copyOk : String → String → Bool
  /-- The result of exif.Decode on the open file: none when decoding
  fails. -/
  exifDecode : String → Option ExifData
  /-- yami.GetMediaInfo applied to a path, a timeout in nanoseconds and a
  parameter string; an error message or a media-info result. -/
  probe : String → Nat → String → Except String MediaInfo

/-- Whether os.Stat reports the path as existing. -/
def statExists (env : FSEnv) (p : String) : Bool := decide (p ∈ env.fs)

/-- getPhotoCreationDate: decode EXIF from the open file; on successful
decode take the DateTime tag, and on decode failure or a missing tag yield
the zero time, never an error. -/
def getPhotoCreationDate (env : FSEnv) (path : String) : DateTime :=
  match env.exifDecode path with
  | some x =>
    match x.dateTime with
    | some d => d
    | none => zeroTime
  | none => zeroTime

/-- The video extension list of isVideoFile. -/
def videoExtensions : List String := [".mp4", ".avi", ".mov", ".mkv", ".wmv"]

/-- isVideoFile: case-insensitive membership of the extension in the video
extension list. -/
def isVideoFile (extension : String) : Bool :=
  videoExtensions.any (fun ext => equalFold extension ext)

/-- getVideoCreationDate: reject non-video extensions, probe the file with
a 10 second timeout requesting raw-format metadata, take the first video
track, require a nonempty TaggedDate, and parse it with the fixed layout
`2006-01-02 15:04:05 UTC`.  Error strings follow the source messages (the
wrapped underlying error text is omitted). -/
def getVideoCreationDate (env : FSEnv) (filePath : String) : Except String DateTime :=
  if !isVideoFile (fileExt filePath) then
    .error ("not a valid video file: " ++ filePath)
  else
    match env.probe filePath (10 * nsPerSecond) "--Language=raw" with
    | .error _ => .error "failed to retrieve video metadata"
    | .ok info =>
      match info.getFirstVideoTrack with
      | none => .error ("no video track found in file: " ++ filePath)
      | some videoTrack =>
        if videoTrack.taggedDate = "" then
          .error ("no tagged date found in video file: " ++ filePath)
        else
          match goTimeParseUTC videoTrack.taggedDate with
          | none => .error "failed to parse video creation date"
          | some creationDate => .ok creationDate

/-- The candidate name of resolveNamingConflict for suffix index `i`:
split the path, insert `_i` between stem and extension, rejoin. -/
def conflictName (path : String) (i : Nat) : String :=
  let dir := (splitPath path).1
  let file := (splitPath path).2
  let ext := fileExt file
  let base := trimSuffix file ext
  joinPath dir (base ++ "_" ++ natToDecStr i ++ ext)

/-- The suffix scan of resolveNamingConflict, starting at index `i`.  The
source loop is unbounded; since the filesystem holds finitely many paths
and the candidate names are pairwise distinct, the scan always stops within
`env.fs.length + 1` probes, which the fuel argument makes structural. -/
def scanConflict (env : FSEnv) (path : String) : Nat → Nat → String
  | i, 0 => conflictName path i
  | i, fuel + 1 =>
    if statExists env (conflictName path i) then scanConflict env path (i + 1) fuel
    else conflictName path i

/-- resolveNamingConflict: append `_1`, `_2`, ... before the extension,
scanning upward from 1 until a name not reported by os.Stat is found. -/
def resolveNamingConflict (env : FSEnv) (path : String) : String :=
  scanConflict env path 1 (env.fs.length + 1)

/-- The progress state.  Every method of the source acquires the internal
mutex, so each operation below is one atomic step of a run. -/
structure State where
  processed : Nat
  total : Nat
  message : String
  duplicates : Nat
  errorCount : Nat
deriving DecidableEq, Repr

/-- NewState. -/
def NewState (total : Nat) : State :=
  { total := total, processed := 0, message := "Initializing...",
    duplicates := 0, errorCount := 0 }

/-- State.IncrementProcessed. -/
def State.IncrementProcessed (s : State) : State :=
  { s with processed := s.processed + 1 }

/-- State.IncrementDuplicates. -/
def State.IncrementDuplicates (s : State) : State :=
  { s with duplicates := s.duplicates + 1 }

/-- State.IncrementError. -/
def State.IncrementError (s : State) : State :=
  { s with errorCount := s.errorCount + 1 }

/-- State.UpdateMessage. -/
def State.UpdateMessage (s : State) (message : String) : State :=
  { s with message := message }

/-- State.Status: a copy of the whole state taken under the read lock, so a
snapshot is the state at one serialization point of the run. -/
def State.Status (s : State) : State := s

/-- The mutating operations of State, each executed atomically under the
mutex. -/
inductive StateOp
  | incProcessed
  | incDuplicates
  | incError
  | updateMessage (m : String)

/-- One atomic State operation. -/
def applyOp (s : State) : StateOp → State
  | .incProcessed => s.IncrementProcessed
  | .incDuplicates => s.IncrementDuplicates
  | .incError => s.IncrementError
  | .updateMessage m => s.UpdateMessage m

/-- A serialized sequence of State operations: since every operation holds
the mutex, any concurrent execution performs exactly such a sequence. -/
def runOps (s : State) (ops : List StateOp) : State := ops.foldl applyOp s

/-- The shared duplicates map: checksum to recorded paths, as an
association list with at most one entry per key. -/
abbrev Index := List (String × List String)

/-- Map lookup (`paths, exists := duplicates[checksum]`). -/
def lookupIdx : Index → String → Option (List String)
  | [], _ => none
  | (k, v) :: rest, c => if k = c then some v else lookupIdx rest c

/-- Map update (`duplicates[checksum] = v`). -/
def setIdx : Index → String → List String → Index
  | [], c, v => [(c, v)]
  | (k, w) :: rest, c, v =>
    if k = c then (k, v) :: rest else (k, w) :: setIdx rest c v

/-- The error cases of processFile, in source order. -/
inductive PErr
  | openFail
  | seekFail
  | checksumFail
  | mkdirFail
  | copyFail
deriving DecidableEq, Repr

/-- The outcome of one processFile call: the returned error (none for a nil
return), the duplicates map and State after the call, the duplicate-log
lines appended, and the destination the file was transferred to (none when
no transfer happened). -/
structure PResult where
  res : Option PErr
  dups : Index
  state : State
  logLines : List String
  placedAt : Option String

/-- The date extraction of processFile: video files go through
getVideoCreationDate with any error mapped to the zero time, all other
files through getPhotoCreationDate. -/
def resolveFileDate (env : FSEnv) (path : String) : DateTime :=
  if isVideoFile (lowerStr (fileExt path)) then
    match getVideoCreationDate env path with
    | .error _ => zeroTime
    | .ok d => d
  else getPhotoCreationDate env path

/-- processFile: open the file, resolve a creation date, seek back, compute
the checksum, then under the map lock either record a duplicate (append the
source path to the existing entry, keeping its first element, copy to the
duplicates store and log one line naming the first recorded path) or place
the file as canonical (dated archive path or no-data path, with naming
conflicts resolved) and register `checksum -> [destPath]`.  The head of a
recorded entry is read as `paths[0]` in the source; entries are always
nonempty, and the model reads it as `headD` with an empty default. -/
def processFile (env : FSEnv) (path destDir duplicatesDir noDataDir : String)
    (duplicates : Index) (st : State) : PResult :=
  if !env.openOk path then ⟨some .openFail, duplicates, st, [], none⟩ else
  let date := resolveFileDate env path
  if !env.seekOk path then ⟨some .seekFail, duplicates, st, [], none⟩ else
  match env.checksumOf path with
  | none => ⟨some .checksumFail, duplicates, st, [], none⟩
  | some checksum =>
    match lookupIdx duplicates checksum with
    | some paths =>
      let duplicatePath0 := joinPath duplicatesDir (baseName path)
      let duplicatePath :=
        if statExists env duplicatePath0 then resolveNamingConflict env duplicatePath0
        else duplicatePath0
      if !env.copyOk path duplicatePath then ⟨some .copyFail, duplicates, st, [], none⟩
      else
        ⟨none, setIdx duplicates checksum (paths ++ [path]), st.IncrementDuplicates,
         ["Duplicate detected: " ++ path ++ " (duplicate of: " ++ paths.headD "" ++ ")"],
         some duplicatePath⟩
    | none =>
      if date.isZero then
        let destPath0 := joinPath noDataDir (baseName path)
        let destPath :=
          if statExists env destPath0 then resolveNamingConflict env destPath0
          else destPath0
        if !env.copyOk path destPath then ⟨some .copyFail, duplicates, st, [], none⟩
        else ⟨none, setIdx duplicates checksum [destPath], st, [], some destPath⟩
      else
        let destFolder :=
          joinPath (joinPath (joinPath destDir (formatYear date.year)) (pad2 date.month))
            (pad2 date.day)
        if !env.mkdirOk destFolder then ⟨some .mkdirFail, duplicates, st, [], none⟩ else
        let destFileName :=
          trimSuffix (baseName path) (fileExt path) ++ "_" ++ strTake checksum 8 ++
            fileExt path
        let destPath0 := joinPath destFolder destFileName
        let destPath :=
          if statExists env destPath0 then resolveNamingConflict env destPath0
          else destPath0
        if !env.copyOk path destPath then ⟨some .copyFail, duplicates, st, [], none⟩
        else ⟨none, setIdx duplicates checksum [destPath], st, [], some destPath⟩

/-- A directory entry of the source tree, as the two filepath.Walk passes
see it. -/
structure FileEnt where
  path : String
  isDir : Bool

/-- The files a walk of the tree hands on: regular files whose base name
does not begin with the hidden-file marker.  CountFiles and ProcessFiles
run this same traversal. -/
def walkFiles (tree : List FileEnt) : List String :=
  (tree.filter (fun e => !e.isDir && !strHasPrefix (baseName e.path) ".")).map
    (fun e => e.path)

/-- CountFiles. -/
def CountFiles (tree : List FileEnt) : Nat := (walkFiles tree).length

/-- The three destination roots ProcessFiles works with. -/
structure Dirs where
  destDir : String
  duplicatesDir : String
  noDataDir : String

/-- The special directories ProcessFiles derives from the destination
root. -/
def mkDirs (destDir : String) : Dirs :=
  ⟨destDir, joinPath destDir "duplicates", joinPath destDir "nodata"⟩

/-- The accumulated observable effects of a run: the State, the duplicates
map, the duplicate log, the number of progress-tick notifications sent to
the messenger, and the per-file outcomes (the path with the processFile
error, if any) as specification instrumentation. -/
structure LoopAcc where
  st : State
  idx : Index
  log : List String
  ticks : Nat
  results : List (String × Option PErr)

/-- The accumulator at the start of a run. -/
def initAcc (st : State) : LoopAcc := ⟨st, [], [], 0, []⟩

/-- The worker body of ProcessFiles for one received path: run processFile,
on error increment the error counter, then increment the processed counter
and send one progress tick, unconditionally. -/
def workerStep (env : FSEnv) (dirs : Dirs) (acc : LoopAcc) (path : String) : LoopAcc :=
  let r := processFile env path dirs.destDir dirs.duplicatesDir dirs.noDataDir
    acc.idx acc.st
  let st1 := if r.res.isSome then r.state.IncrementError else r.state
  { st := st1.IncrementProcessed,
    idx := r.dups,
    log := acc.log ++ r.logLines,
    ticks := acc.ticks + 1,
    results := acc.results ++ [(path, r.res)] }

/-- The worker pool of ProcessFiles, as the serialization of its critical
sections: every interleaving of the workers executes the per-file steps in
some order over the walked files, and the theorems below quantify over
every order. -/
def processFilesLoop (env : FSEnv) (dirs : Dirs) (files : List String)
    (acc : LoopAcc) : LoopAcc :=
  files.foldl (workerStep env dirs) acc

/-- ProcessFiles after its structural preamble (creating the duplicates and
no-data directories and opening the log) has succeeded: walk the source
tree and feed every eligible file to the worker pool. -/
def ProcessFilesModel (env : FSEnv) (tree : List FileEnt) (destDir : String)
    (st : State) : LoopAcc :=
  processFilesLoop env (mkDirs destDir) (walkFiles tree) (initAcc st)

/-- The run-mode options of the flag-aware caller:
`photo.Options{MoveFiles: *moveFiles}`. -/
structure Options where
  moveFiles : Bool

/-- A transfer the pipeline performs for one file. -/
inductive TransferOp
  | copyOp (src dest : String)
  | moveOp (src dest : String)
deriving DecidableEq, Repr

/-- The filesystem responses a move consults: whether os.Rename succeeds
for a source and destination. -/
structure MoveEnv where
  renameOk : String → String → Bool
  sameVolume : String → String → Bool

/-- moveFile: a bare os.Rename; any failure (in particular a cross-volume
rename) propagates as an error, with no copy-and-delete fallback. -/
def moveFile (env : MoveEnv) (src dest : String) : Except String Unit :=
  if env.renameOk src dest then .ok ()
  else .error ("failed to move file from " ++ src ++ " to " ++ dest)

/-- Modelled from the spec: the run-mode dispatch of the options-aware
pipeline.  The repository contains a `main` that builds
`photo.Options{MoveFiles}` from the `-move` flag and passes it to
ProcessFiles, but the options-aware body of the photo package is not among
the provided sources; per the spec the flag selects copy versus move
semantics once per run, applied uniformly to every transfer. -/
def pipelineTransferOp (opts : Options) (src dest : String) : TransferOp :=
  if opts.moveFiles then .moveOp src dest else .copyOp src dest

/-- Modelled from the spec: the transfers one run performs, one per
file. -/
def runTransferOps (opts : Options) (transfers : List (String × String)) :
    List TransferOp :=
  transfers.map (fun sd => pipelineTransferOp opts sd.1 sd.2)

/-- A healthy environment for concrete runs: no path exists yet, all
filesystem calls succeed, files carry no EXIF data, and the prober fails. -/
def env0 : FSEnv where
  fs := []
  openOk := fun _ => true
  seekOk := fun _ => true
  checksumOf := fun _ => some "aabbccddeeff00112233445566778899"
  mkdirOk := fun _ => true
  copyOk := fun _ _ => true
  exifDecode := fun _ => none
  probe := fun _ _ _ => .error "mediainfo not available"

/-- A healthy environment whose files carry an EXIF creation date of
2020-05-01 and hash to a checksum beginning abcdef01. -/
def envDated : FSEnv :=
  { env0 with
    checksumOf := fun _ => some "abcdef0123456789abcdef0123456789"
    exifDecode := fun _ => some ⟨some ⟨2020, 5, 1, 10, 30, 0⟩⟩ }

/-- An environment whose prober reports a first video track tagged
`2020-05-01 10:00:00 GMT`: a tagged string of the claimed pattern with a
zone designator other than UTC. -/
def envGMT : FSEnv :=
  { env0 with probe := fun _ _ _ => .ok ⟨[⟨"2020-05-01 10:00:00 GMT"⟩]⟩ }

/-- An environment whose prober reports a first video track tagged
`2020-05-01 10:00:00 UTC`. -/
def envUTC : FSEnv :=
  { env0 with probe := fun _ _ _ => .ok ⟨[⟨"2020-05-01 10:00:00 UTC"⟩]⟩ }

/-- An environment where opening any file fails. -/
def envOpenFail : FSEnv :=
  { env0 with openOk := fun _ => false }

/-- An environment for the conflict-resolution scenarios: the computed
target and its first suffixed variant both exist already. -/
def envConflict2 : FSEnv :=
  { env0 with fs := ["dest/nodata/pic.jpg", "dest/nodata/pic_1.jpg"] }

theorem strData_append (a b : String) : (a ++ b).data = a.data ++ b.data := by
  cases a; cases b; rfl

theorem strMk_data (s : String) : String.mk s.data = s := by
  cases s; rfl

theorem str_eq_iff_data (a b : String) : a = b ↔ a.data = b.data := by
  cases a; cases b
  exact ⟨fun h => by injection h, fun h => congrArg String.mk h⟩

theorem strAppend_cancel_left {a x y : String} (h : a ++ x = a ++ y) : x = y := by
  rw [str_eq_iff_data] at h ⊢
  rw [strData_append, strData_append] at h
  exact List.append_cancel_left h

theorem strAppend_cancel_right {a x y : String} (h : x ++ a = y ++ a) : x = y := by
  rw [str_eq_iff_data] at h ⊢
  rw [strData_append, strData_append] at h
  exact List.append_cancel_right h

theorem strAppend_assoc (a b c : String) : a ++ b ++ c = a ++ (b ++ c) := by
  rw [str_eq_iff_data]
  simp [strData_append]

theorem decVal_append_digit (l : List Char) (c : Char) :
    decVal (l ++ [c]) = decVal l * 10 + (c.toNat - 48) := by
  simp [decVal, List.foldl_append]

theorem digitChar_toNat {d : Nat} (hd : d < 10) : (digitChar d).toNat - 48 = d := by
  interval_cases d <;> rfl

theorem revDecDigits_lt_ten : ∀ fuel n d, d ∈ revDecDigits fuel n → d < 10 := by
  intro fuel
  induction fuel with
  | zero => intro n d h; cases n <;> simp [revDecDigits] at h
  | succ fuel ih =>
    intro n d h
    cases n with
    | zero => simp [revDecDigits] at h
    | succ m =>
      simp only [revDecDigits, List.mem_cons] at h
      rcases h with h | h
      · omega
      · exact ih _ _ h

theorem ofRevDigits_revDecDigits : ∀ fuel n, n ≤ fuel →
    ofRevDigits (revDecDigits fuel n) = n := by
  intro fuel
  induction fuel with
  | zero => intro n hn; interval_cases n; rfl
  | succ fuel ih =>
    intro n hn
    cases n with
    | zero => rfl
    | succ m =>
      have hdiv : (m + 1) / 10 < m + 1 := Nat.div_lt_self (Nat.succ_pos m) (by norm_num)
      have hle : (m + 1) / 10 ≤ fuel := by omega
      simp only [revDecDigits, ofRevDigits, ih _ hle]
      omega

theorem decVal_of_digits : ∀ ds : List Nat, (∀ d ∈ ds, d < 10) →
    decVal ((ds.map digitChar).reverse) = ofRevDigits ds := by
  intro ds
  induction ds with
  | nil => intro _; rfl
  | cons d ds ih =>
    intro h
    have hd : d < 10 := h d (List.mem_cons_self d ds)
    have hds : ∀ x ∈ ds, x < 10 := fun x hx => h x (List.mem_cons_of_mem d hx)
    simp only [List.map_cons, List.reverse_cons, decVal_append_digit, ih hds,
      digitChar_toNat hd, ofRevDigits]
    omega

theorem natToDecStr_leftInv (n : Nat) : decValStr (natToDecStr n) = n := by
  by_cases h : n = 0
  · subst h; decide
  · have : natToDecStr n = String.mk (((revDecDigits n n).map digitChar).reverse) := by
      simp [natToDecStr, h]
    rw [this]
    have : decValStr (String.mk (((revDecDigits n n).map digitChar).reverse)) =
        decVal (((revDecDigits n n).map digitChar).reverse) := rfl
    rw [this, decVal_of_digits _ (fun d hd => revDecDigits_lt_ten n n d hd),
      ofRevDigits_revDecDigits n n (Nat.le_refl n)]

theorem natToDecStr_injective {i j : Nat} (h : natToDecStr i = natToDecStr j) : i = j := by
  have := congrArg decValStr h
  rwa [natToDecStr_leftInv, natToDecStr_leftInv] at this

theorem joinPath_right_inj {d x y : String} (h : joinPath d x = joinPath d y) :
    x = y := by
  unfold joinPath at h
  by_cases hd : d = ""
  · simpa [hd] using h
  · by_cases hs : endsWithSlash d
    · simp only [hd, hs, if_true, if_false, ite_true, ite_false] at h
      exact strAppend_cancel_left h
    · simp only [hd, hs, if_true, if_false, ite_true, ite_false] at h
      exact strAppend_cancel_left (strAppend_cancel_left
        ((strAppend_assoc d "/" x) ▸ (strAppend_assoc d "/" y) ▸ h))

theorem conflictName_inj (path : String) {i j : Nat}
    (h : conflictName path i = conflictName path j) : i = j := by
  unfold conflictName at h
  have h1 := joinPath_right_inj h
  have h2 := strAppend_cancel_right h1
  have h3 := strAppend_cancel_left h2
  exact natToDecStr_injective h3

theorem exists_fresh_conflictName (env : FSEnv) (path : String) (i : Nat) :
    ∃ k, k ≤ env.fs.length ∧ statExists env (conflictName path (i + k)) = false := by
  by_contra hcon
  push_neg at hcon
  have hmem : ∀ k : Nat, k ≤ env.fs.length → conflictName path (i + k) ∈ env.fs := by
    intro k hk
    have hb := hcon k hk
    have : statExists env (conflictName path (i + k)) = true := by
      cases hx : statExists env (conflictName path (i + k))
      · exact absurd hx hb
      · rfl
    exact of_decide_eq_true this
  set n := env.fs.length with hn
  let f : Fin (n + 1) → String := fun k => conflictName path (i + k)
  have hinj : Function.Injective f := by
    intro a b hab
    have := conflictName_inj path hab
    exact Fin.ext (by omega)
  have hcard : (Finset.univ.image f).card = n + 1 := by
    rw [Finset.card_image_of_injective Finset.univ hinj, Finset.card_univ,
      Fintype.card_fin]
  have hsub : Finset.univ.image f ⊆ env.fs.toFinset := by
    intro x hx
    rcases Finset.mem_image.mp hx with ⟨k, _, hk⟩
    exact List.mem_toFinset.mpr (hk ▸ hmem k (by omega))
  have := Finset.card_le_card hsub
  have := List.toFinset_card_le env.fs
  omega

theorem scanConflict_spec (env : FSEnv) (path : String) : ∀ fuel i,
    (∃ k, k < fuel ∧ statExists env (conflictName path (i + k)) = false) →
    ∃ m, m < fuel ∧ scanConflict env path i fuel = conflictName path (i + m) ∧
      statExists env (conflictName path (i + m)) = false ∧
      ∀ j, j < m → statExists env (conflictName path (i + j)) = true := by
  intro fuel
  induction fuel with
  | zero =>
    intro i h
    rcases h with ⟨k, hk, _⟩
    omega
  | succ fuel ih =>
    intro i h
    rcases h with ⟨k, hk, hfresh⟩
    by_cases hcur : statExists env (conflictName path i) = true
    · have hk0 : k ≠ 0 := by
        intro h0
        rw [h0, Nat.add_zero] at hfresh
        rw [hfresh] at hcur
        cases hcur
      have hnext : ∃ k', k' < fuel ∧
          statExists env (conflictName path (i + 1 + k')) = false := by
        refine ⟨k - 1, by omega, ?_⟩
        rw [show i + 1 + (k - 1) = i + k by omega]
        exact hfresh
      rcases ih (i + 1) hnext with ⟨m, hm, heq, hfr, hbelow⟩
      refine ⟨m + 1, by omega, ?_, ?_, ?_⟩
      · simp only [scanConflict, hcur, if_true, ite_true]
        rw [heq]
        congr 1
        omega
      · rw [show i + (m + 1) = i + 1 + m by omega]
        exact hfr
      · intro j hj
        cases j with
        | zero => simpa using hcur
        | succ j' =>
          have := hbelow j' (by omega)
          rwa [show i + 1 + j' = i + (j' + 1) by omega] at this
    · have hcur' : statExists env (conflictName path i) = false := by
        cases hx : statExists env (conflictName path i)
        · rfl
        · exact absurd hx hcur
      refine ⟨0, by omega, ?_, by simpa using hcur', by omega⟩
      simp only [scanConflict, hcur', if_false, ite_false, Bool.false_eq_true]
      rw [Nat.add_zero]

/-- C6: resolveNamingConflict returns the candidate with suffix `_i`
inserted before the extension for the smallest index `i ≥ 1` whose name
does not exist, scanning upward from 1; in particular a first collision
resolves to the `_1` variant and, once that exists too, a second collision
resolves to the `_2` variant. -/
theorem resolveNamingConflict_minimal_fresh (env : FSEnv) (path : String) :
    (∃ i, 1 ≤ i ∧ resolveNamingConflict env path = conflictName path i ∧
      statExists env (conflictName path i) = false ∧
      ∀ j, 1 ≤ j → j < i → statExists env (conflictName path j) = true) ∧
    (statExists env (conflictName path 1) = false →
      resolveNamingConflict env path = conflictName path 1) ∧
    (statExists env (conflictName path 1) = true →
      statExists env (conflictName path 2) = false →
      resolveNamingConflict env path = conflictName path 2) := by
  have hex : ∃ k, k < env.fs.length + 1 ∧
      statExists env (conflictName path (1 + k)) = false := by
    rcases exists_fresh_conflictName env path 1 with ⟨k, hk, hfresh⟩
    exact ⟨k, by omega, hfresh⟩
  rcases scanConflict_spec env path (env.fs.length + 1) 1 hex with
    ⟨m, hm, heq, hfr, hbelow⟩
  have hmain : resolveNamingConflict env path = conflictName path (1 + m) := heq
  refine ⟨⟨1 + m, by omega, hmain, hfr, ?_⟩, ?_, ?_⟩
  · intro j hj1 hjm
    have := hbelow (j - 1) (by omega)
    rwa [show 1 + (j - 1) = j by omega] at this
  · intro h1
    cases m with
    | zero => simpa using hmain
    | succ m' =>
      have := hbelow 0 (by omega)
      rw [Nat.add_zero] at this
      rw [this] at h1
      cases h1
  · intro h1 h2
    cases m with
    | zero =>
      rw [Nat.add_zero] at hfr
      rw [hfr] at h1
      cases h1
    | succ m' =>
      cases m' with
      | zero => simpa using hmain
      | succ m'' =>
        have := hbelow 1 (by omega)
        rw [show (1 : Nat) + 1 = 2 by rfl] at this
        rw [this] at h2
        cases h2

/-- C6 witness: with `dest/nodata/pic.jpg` and `dest/nodata/pic_1.jpg`
both existing, the resolver returns the `_2` variant. -/
theorem resolveNamingConflict_minimal_fresh_w :
    resolveNamingConflict envConflict2 "dest/nodata/pic.jpg" =
      conflictName "dest/nodata/pic.jpg" 2 :=
  (resolveNamingConflict_minimal_fresh envConflict2 "dest/nodata/pic.jpg").2.2
    (by decide) (by decide)

theorem lookup_setIdx_self (idx : Index) (c : String) (v : List String) :
    lookupIdx (setIdx idx c v) c = some v := by
  induction idx with
  | nil => simp [setIdx, lookupIdx]
  | cons kv rest ih =>
    obtain ⟨k, w⟩ := kv
    by_cases hk : k = c
    · subst hk
      simp [setIdx, lookupIdx]
    · simp [setIdx, lookupIdx, hk, ih]

theorem lookup_setIdx_ne (idx : Index) {c c' : String} (v : List String)
    (h : c' ≠ c) : lookupIdx (setIdx idx c v) c' = lookupIdx idx c' := by
  have h' : c ≠ c' := Ne.symm h
  induction idx with
  | nil => simp [setIdx, lookupIdx, h']
  | cons kv rest ih =>
    obtain ⟨k, w⟩ := kv
    by_cases hk : k = c
    · subst hk
      simp [setIdx, lookupIdx, h']
    · by_cases hk' : k = c' <;> simp [setIdx, lookupIdx, hk, hk', ih, h]

theorem processFile_shape (env : FSEnv) (path destDir duplicatesDir noDataDir : String)
    (idx : Index) (st : State) :
    (∃ e, processFile env path destDir duplicatesDir noDataDir idx st =
      ⟨some e, idx, st, [], none⟩) ∨
    (∃ checksum paths dp, env.checksumOf path = some checksum ∧
      lookupIdx idx checksum = some paths ∧
      processFile env path destDir duplicatesDir noDataDir idx st =
        ⟨none, setIdx idx checksum (paths ++ [path]), st.IncrementDuplicates,
         ["Duplicate detected: " ++ path ++ " (duplicate of: " ++ paths.headD "" ++ ")"],
         some dp⟩) ∨
    (∃ checksum dp, env.checksumOf path = some checksum ∧
      lookupIdx idx checksum = none ∧
      processFile env path destDir duplicatesDir noDataDir idx st =
        ⟨none, setIdx idx checksum [dp], st, [], some dp⟩) := by
  unfold processFile
  split
  · exact Or.inl ⟨_, rfl⟩
  · dsimp only
    split
    · exact Or.inl ⟨_, rfl⟩
    · split
      · exact Or.inl ⟨_, rfl⟩
      · rename_i checksum hcs
        split
        · rename_i paths hlk
          split <;> split <;>
            first
            | exact Or.inl ⟨_, rfl⟩
            | exact Or.inr (Or.inl ⟨checksum, paths, _, hcs, hlk, rfl⟩)
        · rename_i hlk
          split
          · split <;> split <;>
              first
              | exact Or.inl ⟨_, rfl⟩
              | exact Or.inr (Or.inr ⟨checksum, _, hcs, hlk, rfl⟩)
          · split
            · exact Or.inl ⟨_, rfl⟩
            · split <;> split <;>
                first
                | exact Or.inl ⟨_, rfl⟩
                | exact Or.inr (Or.inr ⟨checksum, _, hcs, hlk, rfl⟩)

theorem processFile_state_fields (env : FSEnv) (path a b c : String) (idx : Index)
    (st : State) :
    (processFile env path a b c idx st).state.processed = st.processed ∧
    (processFile env path a b c idx st).state.errorCount = st.errorCount ∧
    (processFile env path a b c idx st).state.total = st.total := by
  rcases processFile_shape env path a b c idx st with
    ⟨e, heq⟩ | ⟨cs, ps, dp, _, _, heq⟩ | ⟨cs, dp, _, _, heq⟩ <;>
    rw [heq] <;> simp [State.IncrementDuplicates]

theorem processFile_error_unchanged (env : FSEnv) (path a b c : String) (idx : Index)
    (st : State) (e : PErr) (h : (processFile env path a b c idx st).res = some e) :
    processFile env path a b c idx st = ⟨some e, idx, st, [], none⟩ := by
  rcases processFile_shape env path a b c idx st with
    ⟨e', heq⟩ | ⟨cs, ps, dp, _, _, heq⟩ | ⟨cs, dp, _, _, heq⟩
  · rw [heq] at h ⊢
    have : e' = e := by simpa using h
    rw [this]
  · rw [heq] at h
    simp at h
  · rw [heq] at h
    simp at h

theorem processFile_preserves_entry (env : FSEnv) (path a b c : String) (idx : Index)
    (st : State) {ck : String} {l : List String} (h : lookupIdx idx ck = some l) :
    ∃ t, lookupIdx (processFile env path a b c idx st).dups ck = some (l ++ t) := by
  rcases processFile_shape env path a b c idx st with
    ⟨e, heq⟩ | ⟨cs, ps, dp, hcs, hlk, heq⟩ | ⟨cs, dp, hcs, hlk, heq⟩
  · refine ⟨[], ?_⟩
    rw [heq]
    simpa using h
  · by_cases hc : cs = ck
    · subst hc
      rw [hlk] at h
      have hpl : ps = l := by injection h
      subst hpl
      refine ⟨[path], ?_⟩
      rw [heq]
      exact lookup_setIdx_self idx cs (ps ++ [path])
    · refine ⟨[], ?_⟩
      rw [heq]
      have := @lookup_setIdx_ne idx cs ck (ps ++ [path]) (fun hh => hc hh.symm)
      simp only [this.trans h, List.append_nil]
  · have hc : cs ≠ ck := by
      intro hh
      rw [hh, h] at hlk
      cases hlk
    refine ⟨[], ?_⟩
    rw [heq]
    have := @lookup_setIdx_ne idx cs ck [dp] (fun hh => hc hh.symm)
    simp only [this.trans h, List.append_nil]

theorem loop_preserves_entry (env : FSEnv) (dirs : Dirs) :
    ∀ (files : List String) (acc : LoopAcc) (ck : String) (l : List String),
    lookupIdx acc.idx ck = some l →
    ∃ t, lookupIdx (processFilesLoop env dirs files acc).idx ck = some (l ++ t) := by
  intro files
  induction files with
  | nil =>
    intro acc ck l h
    exact ⟨[], by simpa [processFilesLoop] using h⟩
  | cons f fs ih =>
    intro acc ck l h
    rcases processFile_preserves_entry env f dirs.destDir dirs.duplicatesDir
      dirs.noDataDir acc.idx acc.st h with ⟨t1, h1⟩
    have hstep : (workerStep env dirs acc f).idx =
        (processFile env f dirs.destDir dirs.duplicatesDir dirs.noDataDir
          acc.idx acc.st).dups := rfl
    rcases ih (workerStep env dirs acc f) ck (l ++ t1) (hstep ▸ h1) with ⟨t2, h2⟩
    exact ⟨t1 ++ t2, by simpa [processFilesLoop, List.append_assoc] using h2⟩

theorem workerStep_fields (env : FSEnv) (dirs : Dirs) (acc : LoopAcc) (path : String) :
    (workerStep env dirs acc path).st.processed = acc.st.processed + 1 ∧
    (workerStep env dirs acc path).st.total = acc.st.total ∧
    (workerStep env dirs acc path).ticks = acc.ticks + 1 ∧
    (workerStep env dirs acc path).results = acc.results ++
      [(path, (processFile env path dirs.destDir dirs.duplicatesDir dirs.noDataDir
        acc.idx acc.st).res)] ∧
    (workerStep env dirs acc path).st.errorCount = acc.st.errorCount +
      (if (processFile env path dirs.destDir dirs.duplicatesDir dirs.noDataDir
        acc.idx acc.st).res.isSome then 1 else 0) := by
  obtain ⟨h1, h2, h3⟩ := processFile_state_fields env path dirs.destDir
    dirs.duplicatesDir dirs.noDataDir acc.idx acc.st
  unfold workerStep
  by_cases h : (processFile env path dirs.destDir dirs.duplicatesDir dirs.noDataDir
      acc.idx acc.st).res.isSome <;>
    simp [h, State.IncrementProcessed, State.IncrementError, h1, h2, h3]

theorem loop_counts (env : FSEnv) (dirs : Dirs) :
    ∀ (files : List String) (acc : LoopAcc),
    ∃ newRes : List (String × Option PErr),
      (processFilesLoop env dirs files acc).results = acc.results ++ newRes ∧
      newRes.length = files.length ∧
      (processFilesLoop env dirs files acc).st.processed =
        acc.st.processed + files.length ∧
      (processFilesLoop env dirs files acc).ticks = acc.ticks + files.length ∧
      (processFilesLoop env dirs files acc).st.errorCount =
        acc.st.errorCount + (newRes.filter (fun r => r.2.isSome)).length ∧
      (processFilesLoop env dirs files acc).st.total = acc.st.total := by
  intro files
  induction files with
  | nil =>
    intro acc
    exact ⟨[], by simp [processFilesLoop]⟩
  | cons f fs ih =>
    intro acc
    obtain ⟨h1, h2, h3, h4, h5⟩ := workerStep_fields env dirs acc f
    obtain ⟨newRes, g1, g2, g3, g4, g5, g6⟩ := ih (workerStep env dirs acc f)
    have hloop : processFilesLoop env dirs (f :: fs) acc =
        processFilesLoop env dirs fs (workerStep env dirs acc f) := rfl
    refine ⟨(f, (processFile env f dirs.destDir dirs.duplicatesDir dirs.noDataDir
      acc.idx acc.st).res) :: newRes, ?_, ?_, ?_, ?_, ?_, ?_⟩
    · rw [hloop, g1, h4]
      simp
    · simp [g2]
    · rw [hloop, g3, h1]
      simp only [List.length_cons]
      omega
    · rw [hloop, g4, h3]
      simp only [List.length_cons]
      omega
    · rw [hloop, g5, h5]
      by_cases hr : (processFile env f dirs.destDir dirs.duplicatesDir dirs.noDataDir
          acc.idx acc.st).res.isSome
      · simp [List.filter_cons, hr]
        omega
      · simp [List.filter_cons, hr]
    · rw [hloop, g6, h2]

/-- C1: for every run, once a checksum has an entry in the duplicates map
its first recorded path is never replaced or removed: any processing of
further files only appends to the entry, so the head of the list, the
canonical destination, persists, and a second file of identical content
always takes the duplicate branch rather than a second canonical
placement. -/
theorem canonical_first_path_never_replaced (env : FSEnv) (dirs : Dirs)
    (files : List String) (acc : LoopAcc) (ck p : String) (rest : List String)
    (h : lookupIdx acc.idx ck = some (p :: rest)) :
    ∃ t, lookupIdx (processFilesLoop env dirs files acc).idx ck =
      some (p :: (rest ++ t)) := by
  rcases loop_preserves_entry env dirs files acc ck (p :: rest) h with ⟨t, ht⟩
  exact ⟨t, by simpa using ht⟩

/-- C1 witness: a run over one identical-content file keeps the first
recorded path of the registered checksum. -/
theorem canonical_first_path_never_replaced_w :
    ∃ t, lookupIdx (processFilesLoop env0 (mkDirs "dest") ["src/dup.txt"]
      ⟨NewState 2, [("aabbccddeeff00112233445566778899", ["dest/nodata/test.txt"])],
        [], 0, []⟩).idx "aabbccddeeff00112233445566778899" =
      some ("dest/nodata/test.txt" :: ([] ++ t)) :=
  canonical_first_path_never_replaced env0 (mkDirs "dest") ["src/dup.txt"]
    ⟨NewState 2, [("aabbccddeeff00112233445566778899", ["dest/nodata/test.txt"])],
      [], 0, []⟩ "aabbccddeeff00112233445566778899" "dest/nodata/test.txt" []
    (by decide)

/-- C2: every walked file ticks the progress sink exactly once and bumps
the processed counter exactly once, success or failure alike; a failing
processFile call only adds to the error counter, so with the same tree
walked by both passes the run ends with processed equal to total even when
some files fail. -/
theorem processed_equals_total_with_error_isolation (env : FSEnv)
    (destDir : String) (tree : List FileEnt) :
    (ProcessFilesModel env tree destDir (NewState (CountFiles tree))).st.processed =
      CountFiles tree ∧
    (ProcessFilesModel env tree destDir (NewState (CountFiles tree))).ticks =
      CountFiles tree ∧
    (ProcessFilesModel env tree destDir (NewState (CountFiles tree))).results.length =
      CountFiles tree ∧
    (ProcessFilesModel env tree destDir (NewState (CountFiles tree))).st.errorCount =
      ((ProcessFilesModel env tree destDir (NewState (CountFiles tree))).results.filter
        (fun r => r.2.isSome)).length := by
  obtain ⟨newRes, g1, g2, g3, g4, g5, g6⟩ := loop_counts env (mkDirs destDir)
    (walkFiles tree) (initAcc (NewState (CountFiles tree)))
  have hmodel : ProcessFilesModel env tree destDir (NewState (CountFiles tree)) =
      processFilesLoop env (mkDirs destDir) (walkFiles tree)
        (initAcc (NewState (CountFiles tree))) := rfl
  rw [hmodel]
  have hres : (processFilesLoop env (mkDirs destDir) (walkFiles tree)
      (initAcc (NewState (CountFiles tree)))).results = newRes := by
    simpa [initAcc] using g1
  refine ⟨?_, ?_, ?_, ?_⟩
  · simpa [initAcc, NewState, CountFiles] using g3
  · simpa [initAcc, CountFiles] using g4
  · rw [hres]
    simpa [CountFiles] using g2
  · rw [hres]
    simpa [initAcc, NewState] using g5

/-- C10: when processFile returns an error, nothing observable happened:
the duplicates map, the State and the duplicate log are unchanged and no
transfer destination was produced, so a failed file neither claims
canonical status nor is counted as a duplicate. -/
theorem failed_file_leaves_index_unchanged (env : FSEnv)
    (path destDir duplicatesDir noDataDir : String) (idx : Index) (st : State)
    (e : PErr)
    (h : (processFile env path destDir duplicatesDir noDataDir idx st).res = some e) :
    (processFile env path destDir duplicatesDir noDataDir idx st).dups = idx ∧
    (processFile env path destDir duplicatesDir noDataDir idx st).state = st ∧
    (processFile env path destDir duplicatesDir noDataDir idx st).logLines = [] ∧
    (processFile env path destDir duplicatesDir noDataDir idx st).placedAt = none := by
  have heq := processFile_error_unchanged env path destDir duplicatesDir noDataDir
    idx st e h
  rw [heq]
  exact ⟨rfl, rfl, rfl, rfl⟩

/-- C10 witness: with the open call failing, processFile reports the error
and leaves the map, state, log and placement untouched. -/
theorem failed_file_leaves_index_unchanged_w :
    (processFile envOpenFail "src/a.txt" "dest" "dest/duplicates" "dest/nodata"
      [] (NewState 1)).dups = [] ∧
    (processFile envOpenFail "src/a.txt" "dest" "dest/duplicates" "dest/nodata"
      [] (NewState 1)).state = NewState 1 ∧
    (processFile envOpenFail "src/a.txt" "dest" "dest/duplicates" "dest/nodata"
      [] (NewState 1)).logLines = [] ∧
    (processFile envOpenFail "src/a.txt" "dest" "dest/duplicates" "dest/nodata"
      [] (NewState 1)).placedAt = none :=
  failed_file_leaves_index_unchanged envOpenFail "src/a.txt" "dest"
    "dest/duplicates" "dest/nodata" [] (NewState 1) PErr.openFail (by decide)

theorem runOps_processed_le (ops : List StateOp) :
    ∀ s : State, s.processed ≤ (runOps s ops).processed := by
  induction ops with
  | nil => intro s; exact Nat.le_refl _
  | cons op ops ih =>
    intro s
    have hstep : s.processed ≤ (applyOp s op).processed := by
      cases op <;>
        simp [applyOp, State.IncrementProcessed, State.IncrementDuplicates,
          State.IncrementError, State.UpdateMessage]
    exact Nat.le_trans hstep (ih (applyOp s op))

/-- C9 counterexample: the State operations themselves enforce no upper
bound: one IncrementProcessed on a state constructed with total 0 (a
sequence that a run performs when the tree gains a file between the
counting pass and the processing pass) drives processed past total. -/
theorem processed_bound_cex :
    ¬ (∀ (s : State) (ops : List StateOp),
        (runOps s ops).processed ≤ (runOps s ops).total) := by
  intro h
  exact absurd (h (NewState 0) [StateOp.incProcessed]) (by decide)

/-- C9 amended: the processed counter is monotonically non-decreasing
under every serialized sequence of State operations, and a snapshot is the
exact state at its serialization point; the bound processed ≤ total is not
enforced by the State operations but holds for every run whose processing
pass walks the files counted at construction: after any prefix of such a
run, processed is at most the total fixed by NewState. -/
theorem processed_monotone_snapshot_bounded_in_run :
    (∀ (s : State) (ops1 ops2 : List StateOp),
      (runOps s ops1).processed ≤ (runOps s (ops1 ++ ops2)).processed) ∧
    (∀ (s : State) (ops : List StateOp), (runOps s ops).Status = runOps s ops) ∧
    (∀ (env : FSEnv) (destDir : String) (tree : List FileEnt) (p q : List String),
      walkFiles tree = p ++ q →
      (processFilesLoop env (mkDirs destDir) p
        (initAcc (NewState (CountFiles tree)))).st.processed ≤
        (NewState (CountFiles tree)).total) := by
  refine ⟨?_, ?_, ?_⟩
  · intro s ops1 ops2
    have : runOps s (ops1 ++ ops2) = runOps (runOps s ops1) ops2 := by
      simp [runOps, List.foldl_append]
    rw [this]
    exact runOps_processed_le ops2 (runOps s ops1)
  · intro s ops
    rfl
  · intro env destDir tree p q hsplit
    obtain ⟨newRes, _, _, g3, _, _, _⟩ := loop_counts env (mkDirs destDir) p
      (initAcc (NewState (CountFiles tree)))
    have hle : p.length ≤ CountFiles tree := by
      have : CountFiles tree = p.length + q.length := by
        simp [CountFiles, hsplit]
      omega
    have hproc : (processFilesLoop env (mkDirs destDir) p
        (initAcc (NewState (CountFiles tree)))).st.processed = p.length := by
      simpa [initAcc, NewState] using g3
    rw [hproc]
    exact hle

/-- C9 witness for the amended statement: a one-file run keeps processed
at or below the constructed total. -/
theorem processed_monotone_snapshot_bounded_in_run_w :
    (processFilesLoop env0 (mkDirs "dest") ["src/a.txt"]
      (initAcc (NewState (CountFiles [⟨"src/a.txt", false⟩])))).st.processed ≤
      (NewState (CountFiles [⟨"src/a.txt", false⟩])).total :=
  processed_monotone_snapshot_bounded_in_run.2.2 env0 "dest"
    [⟨"src/a.txt", false⟩] ["src/a.txt"] [] (by decide)

/-- C3 counterexample: processing a duplicate transfers it to
`dest/duplicates/dup.txt` but appends its source path `src/dup.txt` to the
checksum entry, so the stored list holds a path that is not a destination
path and differs from the placed destination. -/
theorem duplicate_appends_source_path_cex :
    lookupIdx (processFile env0 "src/dup.txt" "dest" "dest/duplicates" "dest/nodata"
      [("aabbccddeeff00112233445566778899", ["dest/nodata/test.txt"])]
      (NewState 2)).dups "aabbccddeeff00112233445566778899" =
      some ["dest/nodata/test.txt", "src/dup.txt"] ∧
    (processFile env0 "src/dup.txt" "dest" "dest/duplicates" "dest/nodata"
      [("aabbccddeeff00112233445566778899", ["dest/nodata/test.txt"])]
      (NewState 2)).placedAt = some "dest/duplicates/dup.txt" ∧
    ("src/dup.txt" : String) ≠ "dest/duplicates/dup.txt" := by
  refine ⟨by decide, by decide, by decide⟩

/-- C3 amended: when the checksum is already recorded, the file is
transferred to the duplicates store (conflict-resolved when occupied) and
the element appended to the checksum entry is the duplicate's original
source path, not the placed destination; the log line names the first
recorded path.  Only the first element of an entry is a destination path,
registered by the canonical branch. -/
theorem duplicate_appends_source_path (env : FSEnv)
    (path destDir duplicatesDir noDataDir : String) (idx : Index) (st : State)
    (ck : String) (paths : List String)
    (hopen : env.openOk path = true) (hseek : env.seekOk path = true)
    (hck : env.checksumOf path = some ck) (hlk : lookupIdx idx ck = some paths)
    (hcopy : ∀ p, env.copyOk path p = true) :
    lookupIdx (processFile env path destDir duplicatesDir noDataDir idx st).dups ck =
      some (paths ++ [path]) ∧
    (processFile env path destDir duplicatesDir noDataDir idx st).placedAt =
      some (if statExists env (joinPath duplicatesDir (baseName path)) then
        resolveNamingConflict env (joinPath duplicatesDir (baseName path))
      else joinPath duplicatesDir (baseName path)) ∧
    (processFile env path destDir duplicatesDir noDataDir idx st).logLines =
      ["Duplicate detected: " ++ path ++ " (duplicate of: " ++ paths.headD "" ++ ")"] ∧
    (processFile env path destDir duplicatesDir noDataDir idx st).state =
      st.IncrementDuplicates := by
  unfold processFile
  simp only [hopen, hseek, hck, hlk, hcopy, Bool.not_true, Bool.false_eq_true,
    if_false, ite_false]
  by_cases hst : statExists env (joinPath duplicatesDir (baseName path)) <;>
    simp [hst, hcopy, lookup_setIdx_self]

/-- C3 witness for the amended statement. -/
theorem duplicate_appends_source_path_w :
    lookupIdx (processFile env0 "src/copy2.txt" "dest" "dest/duplicates" "dest/nodata"
      [("aabbccddeeff00112233445566778899", ["dest/2020/05/01/a_aabbccdd.txt"])]
      (NewState 3)).dups "aabbccddeeff00112233445566778899" =
      some ["dest/2020/05/01/a_aabbccdd.txt", "src/copy2.txt"] ∧
    (processFile env0 "src/copy2.txt" "dest" "dest/duplicates" "dest/nodata"
      [("aabbccddeeff00112233445566778899", ["dest/2020/05/01/a_aabbccdd.txt"])]
      (NewState 3)).placedAt =
      some (if statExists env0 (joinPath "dest/duplicates" (baseName "src/copy2.txt")) then
        resolveNamingConflict env0 (joinPath "dest/duplicates" (baseName "src/copy2.txt"))
      else joinPath "dest/duplicates" (baseName "src/copy2.txt")) ∧
    (processFile env0 "src/copy2.txt" "dest" "dest/duplicates" "dest/nodata"
      [("aabbccddeeff00112233445566778899", ["dest/2020/05/01/a_aabbccdd.txt"])]
      (NewState 3)).logLines =
      ["Duplicate detected: " ++ "src/copy2.txt" ++ " (duplicate of: " ++
        (["dest/2020/05/01/a_aabbccdd.txt"] : List String).headD "" ++ ")"] ∧
    (processFile env0 "src/copy2.txt" "dest" "dest/duplicates" "dest/nodata"
      [("aabbccddeeff00112233445566778899", ["dest/2020/05/01/a_aabbccdd.txt"])]
      (NewState 3)).state = (NewState 3).IncrementDuplicates :=
  duplicate_appends_source_path env0 "src/copy2.txt" "dest" "dest/duplicates"
    "dest/nodata" [("aabbccddeeff00112233445566778899", ["dest/2020/05/01/a_aabbccdd.txt"])]
    (NewState 3) "aabbccddeeff00112233445566778899" ["dest/2020/05/01/a_aabbccdd.txt"]
    (by decide) (by decide) (by decide) (by decide) (fun p => rfl)

theorem digitChar_ne_slash (d : Nat) : digitChar d ≠ '/' := by
  unfold digitChar
  split <;> decide

theorem natToDecStr_no_slash (n : Nat) : ∀ c ∈ (natToDecStr n).data, c ≠ '/' := by
  intro c hc
  unfold natToDecStr at hc
  by_cases h : n = 0
  · simp [h] at hc
    subst hc
    decide
  · simp [h] at hc
    rcases hc with ⟨a, _, ha⟩
    rw [← ha]
    exact digitChar_ne_slash a

theorem natToDecStr_ne_nil (n : Nat) : (natToDecStr n).data ≠ [] := by
  unfold natToDecStr
  by_cases h : n = 0
  · subst h
    decide
  · simp only [h, if_false, ite_false]
    cases n with
    | zero => exact absurd rfl h
    | succ m => simp [revDecDigits]

theorem padZeros_no_slash (s : String) (w : Nat) (hs : ∀ c ∈ s.data, c ≠ '/') :
    ∀ c ∈ (padZeros s w).data, c ≠ '/' := by
  intro c hc
  unfold padZeros at hc
  simp only [List.mem_append] at hc
  rcases hc with hc | hc
  · rw [List.eq_of_mem_replicate hc]
    decide
  · exact hs c hc

theorem padZeros_ne_nil (s : String) (w : Nat) (h : s.data ≠ []) :
    (padZeros s w).data ≠ [] := by
  unfold padZeros
  simp [h]

theorem strNe_empty_right (a b : String) (hb : b.data ≠ []) : a ++ b ≠ "" := by
  intro h
  rw [str_eq_iff_data, strData_append] at h
  have hz : ("" : String).data = [] := rfl
  rw [hz] at h
  exact hb (List.append_eq_nil.mp h).2

theorem revHead_ne_slash {l : List Char} (h : ∀ c ∈ l, c ≠ '/') :
    l.reverse.head? ≠ some '/' := by
  cases hr : l.reverse with
  | nil => simp
  | cons c cs =>
    have hc : c ∈ l := by
      have : c ∈ l.reverse := by
        rw [hr]
        exact List.mem_cons_self c cs
      simpa [List.mem_reverse] using this
    simp [h c hc]

theorem joinPath_eq (d n : String) (hd : d ≠ "") (hs : endsWithSlash d = false) :
    joinPath d n = d ++ "/" ++ n := by
  simp [joinPath, hd, hs]

theorem endsWithSlash_append (a b : String) (hb : b.data ≠ [])
    (hbs : b.data.reverse.head? ≠ some '/') : endsWithSlash (a ++ b) = false := by
  unfold endsWithSlash
  rw [strData_append, List.reverse_append]
  cases hr : b.data.reverse with
  | nil => exact absurd (by simpa using hr) hb
  | cons c cs =>
    rw [hr] at hbs
    have hc : c ≠ '/' := by simpa using hbs
    simp [List.cons_append, hc]

/-- C5: a fresh-checksum file with a resolved date is placed, before any
naming-conflict resolution runs, at
`destDir/<year>/<month>/<day>/<stem>_<first 8 checksum chars><ext>`, the
month and day zero-padded to two digits, and processFile succeeds. -/
theorem dated_destination_path (env : FSEnv)
    (path destDir duplicatesDir noDataDir : String) (idx : Index) (st : State)
    (ck : String) (d : DateTime)
    (hopen : env.openOk path = true) (hseek : env.seekOk path = true)
    (hck : env.checksumOf path = some ck) (hlk : lookupIdx idx ck = none)
    (hdate : resolveFileDate env path = d) (hdz : d.isZero = false)
    (hmk : ∀ dir, env.mkdirOk dir = true) (hcopy : ∀ p, env.copyOk path p = true)
    (hdd : destDir ≠ "") (hds : endsWithSlash destDir = false)
    (hnoc : statExists env (destDir ++ "/" ++ formatYear d.year ++ "/" ++
      pad2 d.month ++ "/" ++ pad2 d.day ++ "/" ++
      (trimSuffix (baseName path) (fileExt path) ++ "_" ++ strTake ck 8 ++
        fileExt path)) = false) :
    (processFile env path destDir duplicatesDir noDataDir idx st).res = none ∧
    (processFile env path destDir duplicatesDir noDataDir idx st).placedAt =
      some (destDir ++ "/" ++ formatYear d.year ++ "/" ++ pad2 d.month ++ "/" ++
        pad2 d.day ++ "/" ++
        (trimSuffix (baseName path) (fileExt path) ++ "_" ++ strTake ck 8 ++
          fileExt path)) := by
  have hY : (formatYear d.year).data ≠ [] := padZeros_ne_nil _ _ (natToDecStr_ne_nil _)
  have hYs : ∀ c ∈ (formatYear d.year).data, c ≠ '/' :=
    padZeros_no_slash _ _ (natToDecStr_no_slash _)
  have hM : (pad2 d.month).data ≠ [] := padZeros_ne_nil _ _ (natToDecStr_ne_nil _)
  have hMs : ∀ c ∈ (pad2 d.month).data, c ≠ '/' :=
    padZeros_no_slash _ _ (natToDecStr_no_slash _)
  have hD : (pad2 d.day).data ≠ [] := padZeros_ne_nil _ _ (natToDecStr_ne_nil _)
  have hDs : ∀ c ∈ (pad2 d.day).data, c ≠ '/' :=
    padZeros_no_slash _ _ (natToDecStr_no_slash _)
  have h1 : joinPath destDir (formatYear d.year) = destDir ++ "/" ++ formatYear d.year :=
    joinPath_eq _ _ hdd hds
  have n1 : destDir ++ "/" ++ formatYear d.year ≠ "" := strNe_empty_right _ _ hY
  have e1 : endsWithSlash (destDir ++ "/" ++ formatYear d.year) = false :=
    endsWithSlash_append (destDir ++ "/") _ hY (revHead_ne_slash hYs)
  have h2 : joinPath (destDir ++ "/" ++ formatYear d.year) (pad2 d.month) =
      destDir ++ "/" ++ formatYear d.year ++ "/" ++ pad2 d.month :=
    joinPath_eq _ _ n1 e1
  have n2 : destDir ++ "/" ++ formatYear d.year ++ "/" ++ pad2 d.month ≠ "" :=
    strNe_empty_right _ _ hM
  have e2 : endsWithSlash (destDir ++ "/" ++ formatYear d.year ++ "/" ++
      pad2 d.month) = false :=
    endsWithSlash_append (destDir ++ "/" ++ formatYear d.year ++ "/") _ hM
      (revHead_ne_slash hMs)
  have h3 : joinPath (destDir ++ "/" ++ formatYear d.year ++ "/" ++ pad2 d.month)
      (pad2 d.day) = destDir ++ "/" ++ formatYear d.year ++ "/" ++ pad2 d.month ++
        "/" ++ pad2 d.day :=
    joinPath_eq _ _ n2 e2
  have n3 : destDir ++ "/" ++ formatYear d.year ++ "/" ++ pad2 d.month ++ "/" ++
      pad2 d.day ≠ "" := strNe_empty_right _ _ hD
  have e3 : endsWithSlash (destDir ++ "/" ++ formatYear d.year ++ "/" ++
      pad2 d.month ++ "/" ++ pad2 d.day) = false :=
    endsWithSlash_append (destDir ++ "/" ++ formatYear d.year ++ "/" ++
      pad2 d.month ++ "/") _ hD (revHead_ne_slash hDs)
  have hfolder : joinPath (joinPath (joinPath destDir (formatYear d.year))
      (pad2 d.month)) (pad2 d.day) =
      destDir ++ "/" ++ formatYear d.year ++ "/" ++ pad2 d.month ++ "/" ++
        pad2 d.day := by
    rw [h1, h2, h3]
  have hfull : joinPath (joinPath (joinPath (joinPath destDir (formatYear d.year))
      (pad2 d.month)) (pad2 d.day))
      (trimSuffix (baseName path) (fileExt path) ++ "_" ++ strTake ck 8 ++
        fileExt path) =
      destDir ++ "/" ++ formatYear d.year ++ "/" ++ pad2 d.month ++ "/" ++
        pad2 d.day ++ "/" ++
        (trimSuffix (baseName path) (fileExt path) ++ "_" ++ strTake ck 8 ++
          fileExt path) := by
    rw [hfolder, joinPath_eq _ _ n3 e3]
  unfold processFile
  rw [hdate]
  simp only [hopen, hseek, hck, hlk, hdz, hmk, hcopy, hfull, hnoc, Bool.not_true,
    Bool.not_false, Bool.false_eq_true, if_false, ite_false, if_true, ite_true]
  simp

/-- C5 witness: a file with EXIF date 2020-05-01 and checksum beginning
abcdef01 lands at `dest/2020/05/01/photo_abcdef01.jpg`. -/
theorem dated_destination_path_w :
    (processFile envDated "src/photo.jpg" "dest" "dest/duplicates" "dest/nodata"
      [] (NewState 1)).res = none ∧
    (processFile envDated "src/photo.jpg" "dest" "dest/duplicates" "dest/nodata"
      [] (NewState 1)).placedAt = some "dest/2020/05/01/photo_abcdef01.jpg" := by
  have h := dated_destination_path envDated "src/photo.jpg" "dest" "dest/duplicates"
    "dest/nodata" [] (NewState 1) "abcdef0123456789abcdef0123456789"
    ⟨2020, 5, 1, 10, 30, 0⟩ rfl rfl rfl rfl (by decide) (by decide)
    (fun dir => rfl) (fun p => rfl) (by decide) (by decide) (by decide)
  refine ⟨h.1, ?_⟩
  rw [h.2]
  decide

/-- C7: a fresh-checksum file for which no date resolves (EXIF decode
failure or missing timestamp field on the photo side, or any
getVideoCreationDate error on the video side) is not an error: processFile
returns nil and places the file at `destDir/nodata/<original filename>`,
conflict-resolved when that name is occupied. -/
theorem no_date_routes_to_nodata (env : FSEnv) (path destDir : String)
    (idx : Index) (st : State) (ck : String)
    (hmeta : (isVideoFile (lowerStr (fileExt path)) = false ∧
        getPhotoCreationDate env path = zeroTime) ∨
      (isVideoFile (lowerStr (fileExt path)) = true ∧
        ∃ e, getVideoCreationDate env path = Except.error e))
    (hopen : env.openOk path = true) (hseek : env.seekOk path = true)
    (hck : env.checksumOf path = some ck) (hlk : lookupIdx idx ck = none)
    (hcopy : ∀ p, env.copyOk path p = true)
    (hdd : destDir ≠ "") (hds : endsWithSlash destDir = false) :
    (processFile env path destDir (joinPath destDir "duplicates")
      (joinPath destDir "nodata") idx st).res = none ∧
    (processFile env path destDir (joinPath destDir "duplicates")
      (joinPath destDir "nodata") idx st).placedAt =
      some (if statExists env (destDir ++ "/nodata/" ++ baseName path) then
        resolveNamingConflict env (destDir ++ "/nodata/" ++ baseName path)
      else destDir ++ "/nodata/" ++ baseName path) := by
  have hdate : resolveFileDate env path = zeroTime := by
    rcases hmeta with ⟨hv, hp⟩ | ⟨hv, e, he⟩
    · simp [resolveFileDate, hv, hp]
    · simp [resolveFileDate, hv, he]
  have hnd : joinPath destDir "nodata" = destDir ++ "/nodata" := by
    rw [joinPath_eq _ _ hdd hds, strAppend_assoc]
    have : ("/" ++ "nodata" : String) = "/nodata" := by decide
    rw [this]
  have nnd : destDir ++ "/nodata" ≠ "" :=
    strNe_empty_right _ _ (by decide)
  have end' : endsWithSlash (destDir ++ "/nodata") = false :=
    endsWithSlash_append destDir "/nodata" (by decide) (by decide)
  have hjoin : joinPath (destDir ++ "/nodata") (baseName path) =
      destDir ++ "/nodata/" ++ baseName path := by
    rw [joinPath_eq _ _ nnd end', strAppend_assoc destDir "/nodata" "/"]
    have : ("/nodata" ++ "/" : String) = "/nodata/" := by decide
    rw [this]
  unfold processFile
  rw [hdate]
  simp only [hopen, hseek, hck, hlk, hcopy, hnd, hjoin, Bool.not_true,
    Bool.false_eq_true, if_false, ite_false]
  have hz : (zeroTime).isZero = true := by decide
  simp only [hz, if_true, ite_true]
  by_cases hst : statExists env (destDir ++ "/nodata/" ++ baseName path) <;>
    simp [hst, hcopy]

/-- C7 witness: a text file with no metadata is copied to
`dest/nodata/notes.txt` with a nil error. -/
theorem no_date_routes_to_nodata_w :
    (processFile env0 "src/notes.txt" "dest" (joinPath "dest" "duplicates")
      (joinPath "dest" "nodata") [] (NewState 1)).res = none ∧
    (processFile env0 "src/notes.txt" "dest" (joinPath "dest" "duplicates")
      (joinPath "dest" "nodata") [] (NewState 1)).placedAt =
      some "dest/nodata/notes.txt" := by
  have h := no_date_routes_to_nodata env0 "src/notes.txt" "dest" [] (NewState 1)
    "aabbccddeeff00112233445566778899" (Or.inl ⟨by decide, rfl⟩) rfl rfl rfl rfl
    (fun p => rfl) (by decide) (by decide)
  refine ⟨h.1, ?_⟩
  rw [h.2]
  decide

/-- C8 counterexample: the tagged string `2020-05-01 10:00:00 GMT` matches
the claimed pattern `YYYY-MM-DD HH:MM:SS <zone>`, yet getVideoCreationDate
rejects it with a parse error: the fixed layout treats its trailing UTC as
literal text, so no other zone designator is ever accepted. -/
theorem video_zone_designator_cex :
    specTimePatternMatches "2020-05-01 10:00:00 GMT" = true ∧
    goTimeParseUTC "2020-05-01 10:00:00 GMT" = none ∧
    getVideoCreationDate envGMT "video.mp4" =
      .error "failed to parse video creation date" :=
  ⟨by decide, by decide, rfl⟩

/-- C8 amended: isVideoFile accepts exactly the five video extensions
case-insensitively; for a video file getVideoCreationDate consults the
prober with a 10-second timeout requesting raw-format metadata and returns
the first video track's tagged creation date for every tagged string of
the exact form `YYYY-MM-DD HH:MM:SS UTC` (the zone designator must be the
literal UTC); for any other extension the photo strategy is used. -/
theorem video_strategy_behaviour :
    (∀ ext, isVideoFile ext = true ↔ lowerStr ext ∈ videoExtensions) ∧
    (∀ (env : FSEnv) (path : String) (info : MediaInfo) (track : VideoTrack)
      (dt : DateTime),
      isVideoFile (fileExt path) = true →
      env.probe path (10 * nsPerSecond) "--Language=raw" = .ok info →
      info.getFirstVideoTrack = some track →
      goTimeParseUTC track.taggedDate = some dt →
      getVideoCreationDate env path = .ok dt) ∧
    (∀ (env : FSEnv) (path : String),
      isVideoFile (lowerStr (fileExt path)) = false →
      resolveFileDate env path = getPhotoCreationDate env path) := by
  refine ⟨?_, ?_, ?_⟩
  · intro ext
    have h1 : lowerStr ".mp4" = ".mp4" := by decide
    have h2 : lowerStr ".avi" = ".avi" := by decide
    have h3 : lowerStr ".mov" = ".mov" := by decide
    have h4 : lowerStr ".mkv" = ".mkv" := by decide
    have h5 : lowerStr ".wmv" = ".wmv" := by decide
    simp [isVideoFile, videoExtensions, equalFold, h1, h2, h3, h4, h5,
      List.any_cons, List.any_nil]
  · intro env path info track dt hv hprobe htrack hparse
    have hne : track.taggedDate ≠ "" := by
      intro h
      rw [h] at hparse
      have : goTimeParseUTC "" = none := by decide
      rw [this] at hparse
      cases hparse
    unfold getVideoCreationDate
    rw [hprobe]
    simp only [hv, Bool.not_true, Bool.false_eq_true, if_false, ite_false]
    rw [htrack]
    simp [hne, hparse]
  · intro env path h
    simp [resolveFileDate, h]

/-- C8 witness for the amended statement: a probed video with a
UTC-designated tagged date resolves to that date. -/
theorem video_strategy_behaviour_w :
    getVideoCreationDate envUTC "clip.mp4" = .ok ⟨2020, 5, 1, 10, 0, 0⟩ :=
  video_strategy_behaviour.2.1 envUTC "clip.mp4" ⟨[⟨"2020-05-01 10:00:00 UTC"⟩]⟩
    ⟨"2020-05-01 10:00:00 UTC"⟩ ⟨2020, 5, 1, 10, 0, 0⟩ (by decide) rfl rfl
    (by decide)

/-- C4: with move semantics selected by the run-mode flag, every transfer
of the run is a rename (moveFile) and none is a copy, uniformly; moveFile
propagates a cross-volume rename failure as an error instead of falling
back to copy-plus-delete.  The mode dispatch is modelled from the spec
because the options-aware photo package body is not among the provided
sources; moveFile itself follows the source (a bare os.Rename). -/
theorem move_mode_uses_rename_uniformly (opts : Options)
    (transfers : List (String × String)) (h : opts.moveFiles = true) :
    (∀ op ∈ runTransferOps opts transfers, ∃ s d, op = TransferOp.moveOp s d) ∧
    (∀ (menv : MoveEnv) (src dest : String),
      (∀ s d, menv.sameVolume s d = false → menv.renameOk s d = false) →
      menv.sameVolume src dest = false →
      moveFile menv src dest =
        .error ("failed to move file from " ++ src ++ " to " ++ dest)) := by
  constructor
  · intro op hop
    rcases List.mem_map.mp hop with ⟨sd, _, hsd⟩
    exact ⟨sd.1, sd.2, by rw [← hsd]; simp [pipelineTransferOp, h]⟩
  · intro menv src dest hcross hsv
    have hr := hcross src dest hsv
    simp [moveFile, hr]

/-- C4 witness: a move-mode run renames its file, and a cross-volume
rename fails with the move error. -/
theorem move_mode_uses_rename_uniformly_w :
    (∃ s d, pipelineTransferOp ⟨true⟩ "a/x.jpg" "b/x.jpg" =
      TransferOp.moveOp s d) ∧
    moveFile ⟨fun _ _ => false, fun _ _ => false⟩ "a/x.jpg" "b/x.jpg" =
      Except.error ("failed to move file from " ++ "a/x.jpg" ++ " to " ++
        "b/x.jpg") :=
  ⟨(move_mode_uses_rename_uniformly ⟨true⟩ [("a/x.jpg", "b/x.jpg")] rfl).1 _
      (by decide),
   (move_mode_uses_rename_uniformly ⟨true⟩ [("a/x.jpg", "b/x.jpg")] rfl).2
      ⟨fun _ _ => false, fun _ _ => false⟩ "a/x.jpg" "b/x.jpg"
      (fun s d _ => rfl) rfl⟩

end Dedupe
